import Mathlib

/-!
Verification of the core geometry engine of the `jigsaw_puzzle` repository
(`src/jigsaw_puzzle_generator/src/lib.rs`).

Numeric model: the Rust code computes in `f32`/`f64`.  We embed those values as
exact rationals (`ℚ`).  Machine-integer values (`u32`, `usize`) are embedded as
`ℕ`, with truncated subtraction noted where Rust subtraction could under-flow.
The one transcendental the code uses, `f32::sin(seed as f32)`, is embedded as
an abstract parameter `sinA : ℕ → ℚ` (any fixed function models one fixed,
deterministic `sin` implementation; every theorem that needs concrete numbers
instantiates it explicitly).  Rust `f32::round` rounds half away from zero,
which `roundAway` reproduces exactly.
-/

namespace Jigsaw

/-- The `f32::round` operation (round half away from zero), on exact rationals. -/
def roundAway (x : ℚ) : ℤ := if 0 ≤ x then ⌊x + 1 / 2⌋ else ⌈x - 1 / 2⌉

/-- Embeds `round` (lib.rs 438-440): rounds a number to two decimal places,
`(x * 100.0).round() / 100.0`. -/
def round (x : ℚ) : ℚ := (roundAway (x * 100) : ℚ) / 100

/-- Embeds `divide_axis` (lib.rs 427-435): divides the axis into `piece_num` pieces of
equal length; returns the starting offset of each piece and the piece length.
Note: for `piece_num = 0` the Rust code computes `length / 0.0 = +∞` in `f32`
and returns `(vec![], ∞)` normally (no panic, no error value); in `ℚ` division
by zero yields `0`, so only the first component is meaningful at `piece_num = 0`. -/
def divide_axis (length : ℚ) (piece_num : ℕ) : List ℚ × ℚ :=
  let piece_length := round (length / (piece_num : ℚ))
  ((List.range piece_num).map (fun s : ℕ => round ((s : ℚ) * piece_length)),
    piece_length)

/-- Embeds `find_divisors` (lib.rs 465-484): all divisor pairs of `num`.  The Rust
loop runs `i = 1, 2, ...` and breaks as soon as `i * i > num`; since every such
`i` satisfies `i ≤ num`, the loop is equivalent to filtering `i ∈ [1, num]`
by `i * i ≤ num ∧ num % i = 0`.  Non-square pairs are then mirrored, reversed
and appended, exactly as in the source. -/
def find_divisors (num : ℕ) : List (ℕ × ℕ) :=
  let divisor_pairs :=
    ((List.range' 1 num).filter fun i => decide (i * i ≤ num) && decide (num % i = 0)).map
      fun i => (i, num / i)
  let mirrored :=
    ((divisor_pairs.filter fun p => decide (p.1 ≠ p.2)).map fun p => (p.2, p.1)).reverse
  divisor_pairs ++ mirrored

/-- Exact value of `f32::MAX` (the initial `width_height_diff` in
`optimal_aspect_ratio`): `(2 - 2⁻²³) · 2¹²⁷`. -/
def f32Max : ℚ := 2 ^ 128 - 2 ^ 104

/-- The loop of `optimal_aspect_ratio` (lib.rs 497-510), carrying the running
`width_height_diff` and best-so-far `number_of_pieces` accumulators. -/
def oarGo (image_width image_height : ℚ) :
    List (ℕ × ℕ) → ℚ → ℕ × ℕ → ℕ × ℕ
  | [], _, best => best
  | (x, y) :: rest, width_height_diff, best =>
    let width := image_width / (x : ℚ)
    let height := image_height / (y : ℚ)
    let new_width_height_diff := |width - height|
    if new_width_height_diff < 1 then (x, y)
    else if width_height_diff ≥ new_width_height_diff then
      oarGo image_width image_height rest new_width_height_diff (x, y)
    else best

/-- Embeds `optimal_aspect_ratio` (lib.rs 488-512): scans the candidate `(cols, rows)`
pairs for the most nearly square piece shape; errors only on an empty
candidate list. -/
def optimal_aspect_ratio (possible_dimensions : List (ℕ × ℕ))
    (image_width image_height : ℚ) : Except String (ℕ × ℕ) :=
  match possible_dimensions with
  | [] => .error "No possible dimensions found"
  | first :: _ =>
    .ok (oarGo image_width image_height possible_dimensions f32Max first)

/-- Embeds `generate_columns_rows_numbers` (lib.rs 516-523). -/
def generate_columns_rows_numbers (image_width image_height : ℚ)
    (number_of_pieces : ℕ) : Except String (ℕ × ℕ) :=
  optimal_aspect_ratio (find_divisors number_of_pieces) image_width image_height

/-! ### Edge data model (lib.rs 39-124, 379-422) -/

/-- One cubic Bézier segment of an indented edge (lib.rs 39-48). -/
structure IndentationSegment where
  starting_point : ℚ × ℚ
  end_point : ℚ × ℚ
  control_point_1 : ℚ × ℚ
  control_point_2 : ℚ × ℚ
deriving DecidableEq

/-- An indented edge: three cubic Bézier segments (lib.rs 81-88). -/
structure IndentedEdge where
  first_segment : IndentationSegment
  middle_segment : IndentationSegment
  last_segment : IndentationSegment
deriving DecidableEq

/-- A straight border edge (lib.rs 382-385). -/
structure StraightEdge where
  starting_point : ℚ × ℚ
  end_point : ℚ × ℚ
deriving DecidableEq

/-- A piece border: indented (interior) or straight (outer border), lib.rs 410-413. -/
inductive Edge where
  | indentedEdge : IndentedEdge → Edge
  | straightEdge : StraightEdge → Edge
deriving DecidableEq

/-! ### The edge-contour generator (lib.rs 128-377) -/

/-- The state of `EdgeContourGenerator` (lib.rs 128-147). -/
structure EdgeContourGenerator where
  piece_width : ℚ
  piece_height : ℚ
  tab_size : ℚ
  jitter : ℚ
  seed : ℕ
  flipped : Bool
  a : ℚ
  b : ℚ
  c : ℚ
  d : ℚ
  e : ℚ
deriving DecidableEq

variable (sinA : ℕ → ℚ)

/-- Embeds `normalise` (lib.rs 182-185): `frac(sin(seed) * 10000)`, with `f32::sin`
abstracted as `sinA`. -/
def normalise (seed : ℕ) : ℚ :=
  let x := sinA seed * 10000
  x - ⌊x⌋

/-- Embeds `uniform` (lib.rs 188-190). -/
def uniform (min max : ℚ) (seed : ℕ) : ℚ :=
  min + normalise sinA seed * (max - min)

/-- Embeds `rbool` (lib.rs 195-197): `normalise(seed) > 0.5`. -/
def rbool (seed : ℕ) : Bool :=
  decide (normalise sinA seed > 0.5)

/-- Embeds `dice` (lib.rs 200-213): recomputes the factors influencing the edge form. -/
def dice (e : ℚ) (flipped : Bool) (seed : ℕ) (jitter : ℚ) :
    ℕ × Bool × ℚ × ℚ × ℚ × ℚ × ℚ :=
  let new_flipped := rbool sinA seed
  let a := if new_flipped = flipped then -e else e
  let b := uniform sinA (-jitter) jitter (seed + 2)
  let c := uniform sinA (-jitter) jitter (seed + 3)
  let d := uniform sinA (-jitter) jitter (seed + 4)
  let e := uniform sinA (-jitter) jitter (seed + 5)
  (seed + 6, new_flipped, a, b, c, d, e)

/-- A Rust `panic` (failed `assert!`) — an uncatchable fault, not a returned
error value.  `EdgeContourGenerator::new` returns the bare struct in Rust, so
it has no error channel at all; `Except.error Panic.assertionFailed` below
marks exactly the states in which the Rust code panics. -/
inductive Panic where
  | assertionFailed : Panic
deriving DecidableEq

def DEFAULT_TAB_SIZE : ℚ := 20
def DEFAULT_JITTER : ℚ := 5

/-- Embeds `EdgeContourGenerator::new` (lib.rs 152-179).  The two `assert!` calls are
modelled as `Panic`; on success the initial state is produced by one `uniform`
call and one `dice` call, exactly as in the source. -/
def ECGnew (piece_width piece_height : ℚ) (tab_size jitter : Option ℚ)
    (seed : Option ℕ) : Except Panic EdgeContourGenerator :=
  let tab_size := tab_size.getD DEFAULT_TAB_SIZE / 200
  if (0.05 : ℚ) ≤ tab_size ∧ tab_size ≤ (0.15 : ℚ) then
    let jitter := jitter.getD DEFAULT_JITTER / 100
    if (0 : ℚ) ≤ jitter ∧ jitter ≤ (0.13 : ℚ) then
      let seed := seed.getD 0
      let e := uniform sinA (-jitter) jitter (seed + 1)
      let r := dice sinA e false (seed + 2) jitter
      .ok ⟨piece_width, piece_height, tab_size, jitter, r.1, r.2.1, r.2.2.1,
        r.2.2.2.1, r.2.2.2.2.1, r.2.2.2.2.2.1, r.2.2.2.2.2.2⟩
    else .error .assertionFailed
  else .error .assertionFailed

/-- Embeds `longitudinal_position` (lib.rs 216-218). -/
def longitudinal_position (coeff offset length : ℚ) : ℚ :=
  round (offset + coeff * length)

/-- Embeds `transverse_position` (lib.rs 221-223). -/
def transverse_position (coeff offset length : ℚ) (flipped : Bool) : ℚ :=
  round (offset + coeff * length * if flipped then -1 else 1)

/-- Embeds `coords` (lib.rs 229-268). -/
def coords (g : EdgeContourGenerator) (l_coeff t_coeff : ℚ)
    (starting_point : ℚ × ℚ) (vertical : Bool) : ℚ × ℚ :=
  let pos_1 := longitudinal_position l_coeff
    (if vertical then starting_point.2 else starting_point.1)
    (if vertical then g.piece_height else g.piece_width)
  let pos_2 := transverse_position t_coeff
    (if vertical then starting_point.1 else starting_point.2)
    (if vertical then g.piece_width else g.piece_height) g.flipped
  if vertical then (pos_2, pos_1) else (pos_1, pos_2)

/-- Embeds `ep1` (lib.rs 271-278). -/
def ep1 (g : EdgeContourGenerator) (sp : ℚ × ℚ) (vertical : Bool) : ℚ × ℚ :=
  coords g (0.5 - g.tab_size + g.b) (g.tab_size + g.c) sp vertical

/-- Embeds `cp1_1` (lib.rs 281-283). -/
def cp1_1 (g : EdgeContourGenerator) (sp : ℚ × ℚ) (vertical : Bool) : ℚ × ℚ :=
  coords g 0.2 g.a sp vertical

/-- Embeds `cp1_2` (lib.rs 286-293). -/
def cp1_2 (g : EdgeContourGenerator) (sp : ℚ × ℚ) (vertical : Bool) : ℚ × ℚ :=
  coords g (0.5 + g.b + g.d) (-g.tab_size + g.c) sp vertical

/-- Embeds `ep2` (lib.rs 296-303). -/
def ep2 (g : EdgeContourGenerator) (sp : ℚ × ℚ) (vertical : Bool) : ℚ × ℚ :=
  coords g (0.5 + g.tab_size + g.b) (g.tab_size + g.c) sp vertical

/-- Embeds `cp2_1` (lib.rs 306-313). -/
def cp2_1 (g : EdgeContourGenerator) (sp : ℚ × ℚ) (vertical : Bool) : ℚ × ℚ :=
  coords g (0.5 - 2 * g.tab_size + g.b - g.d) (3 * g.tab_size + g.c) sp vertical

/-- Embeds `cp2_2` (lib.rs 316-323). -/
def cp2_2 (g : EdgeContourGenerator) (sp : ℚ × ℚ) (vertical : Bool) : ℚ × ℚ :=
  coords g (0.5 + 2 * g.tab_size + g.b - g.d) (3 * g.tab_size + g.c) sp vertical

/-- Embeds `cp3_1` (lib.rs 326-333). -/
def cp3_1 (g : EdgeContourGenerator) (sp : ℚ × ℚ) (vertical : Bool) : ℚ × ℚ :=
  coords g (0.5 + g.b + g.d) (-g.tab_size + g.b + g.d) sp vertical

/-- Embeds `cp3_2` (lib.rs 336-338). -/
def cp3_2 (g : EdgeContourGenerator) (sp : ℚ × ℚ) (vertical : Bool) : ℚ × ℚ :=
  coords g 0.8 g.e sp vertical

/-- Embeds `EdgeContourGenerator::create` (lib.rs 341-376): builds the three segments
from the current state, then advances the state via
`dice(self.e, false, self.seed + 2, self.jitter)`. -/
def create (g : EdgeContourGenerator) (starting_point end_point : ℚ × ℚ) :
    IndentedEdge × EdgeContourGenerator :=
  let vertical := decide (|end_point.1 - starting_point.1| < 1)
  let first_segment : IndentationSegment :=
    ⟨starting_point, ep1 g starting_point vertical, cp1_1 g starting_point vertical,
      cp1_2 g starting_point vertical⟩
  let middle_segment : IndentationSegment :=
    ⟨ep1 g starting_point vertical, ep2 g starting_point vertical,
      cp2_1 g starting_point vertical, cp2_2 g starting_point vertical⟩
  let last_segment : IndentationSegment :=
    ⟨ep2 g starting_point vertical, end_point, cp3_1 g starting_point vertical,
      cp3_2 g starting_point vertical⟩
  let r := dice sinA g.e false (g.seed + 2) g.jitter
  (⟨first_segment, middle_segment, last_segment⟩,
    { g with
        seed := r.1, flipped := r.2.1, a := r.2.2.1, b := r.2.2.2.1,
        c := r.2.2.2.2.1, d := r.2.2.2.2.2.1, e := r.2.2.2.2.2.2 })

/-! ### The edge grid of `JigsawGenerator::generate` (lib.rs 639-760) -/

/-- Embeds `end_point_pos` (lib.rs 456-462).  (`segments.len() - 1` is `usize`
subtraction; it is truncated here, which agrees with Rust on every call the
generator makes, since those always pass a non-empty list.) -/
def end_point_pos (ind : ℕ) (segments : List ℚ) (fallback : ℚ) : ℚ :=
  if ind < segments.length - 1 then segments.getD (ind + 1) 0 else fallback

/-- Embeds `get_border_indices` (lib.rs 445-453): flat indices of the top, right,
bottom and left edges of the piece at `position`. -/
def get_border_indices (position number_of_columns : ℕ) : ℕ × ℕ × ℕ × ℕ :=
  let row_ind := position / number_of_columns
  (position, position + 1 + row_ind, position + number_of_columns,
    position + row_ind)

/-- The straight top-border horizontal edge pushed for column `c` of row 0
(lib.rs 669-673). -/
def topBorderEdge (xs : List ℚ) (W : ℚ) (c : ℕ) : Edge :=
  .straightEdge ⟨(xs.getD c 0, 0), (end_point_pos c xs W, 0)⟩

/-- The straight bottom-outer horizontal edge for column `c` (lib.rs 716-724). -/
def bottomOuterEdge (xs : List ℚ) (W H : ℚ) (c : ℕ) : Edge :=
  .straightEdge ⟨(xs.getD c 0, H), (end_point_pos c xs W, H)⟩

/-- The straight left-border vertical edge for row `r` (lib.rs 684-691). -/
def leftBorderEdge (ys : List ℚ) (H : ℚ) (r : ℕ) : Edge :=
  .straightEdge ⟨(0, ys.getD r 0), (0, end_point_pos r ys H)⟩

/-- The straight right-outer vertical edge for row `r` (lib.rs 706-712). -/
def rightOuterEdge (ys : List ℚ) (W H : ℚ) (r : ℕ) : Edge :=
  .straightEdge ⟨(W, ys.getD r 0), (W, end_point_pos r ys H)⟩

/-- The horizontal edge pushed at row `r`, column `c` (lib.rs 669-683): the
`top_border` flag is true exactly on the first outer iteration, i.e. `r = 0`. -/
def mkHorizontalEdge (xs ys : List ℚ) (W : ℚ) (r c : ℕ)
    (g : EdgeContourGenerator) : Edge × EdgeContourGenerator :=
  if r = 0 then (topBorderEdge xs W c, g)
  else
    let p := create sinA g (xs.getD c 0, ys.getD r 0)
      (end_point_pos c xs W, ys.getD r 0)
    (.indentedEdge p.1, p.2)

/-- The vertical edge pushed at row `r`, column `c` (lib.rs 684-701): the
`left_border` flag is true exactly on the first inner iteration, i.e. `c = 0`. -/
def mkVerticalEdge (xs ys : List ℚ) (H : ℚ) (r c : ℕ)
    (g : EdgeContourGenerator) : Edge × EdgeContourGenerator :=
  if c = 0 then (leftBorderEdge ys H r, g)
  else
    let p := create sinA g (xs.getD c 0, ys.getD r 0)
      (xs.getD c 0, end_point_pos r ys H)
    (.indentedEdge p.1, p.2)

/-- The inner loop of `generate` over `index_x` (lib.rs 668-703): pushes one
horizontal and one vertical edge per column, threading the generator state. -/
def innerLoop (xs ys : List ℚ) (W H : ℚ) (r : ℕ) :
    List ℕ → EdgeContourGenerator → EdgeContourGenerator × List Edge × List Edge
  | [], g => (g, [], [])
  | c :: cs, g =>
    let h := mkHorizontalEdge sinA xs ys W r c g
    let v := mkVerticalEdge sinA xs ys H r c h.2
    let rest := innerLoop xs ys W H r cs v.2
    (rest.1, h.1 :: rest.2.1, v.1 :: rest.2.2)

/-- The outer loop of `generate` over `index_y` (lib.rs 666-713): runs the
inner loop for the whole row, then pushes the right outer vertical edge. -/
def outerLoop (xs ys : List ℚ) (W H : ℚ) :
    List ℕ → EdgeContourGenerator → EdgeContourGenerator × List Edge × List Edge
  | [], g => (g, [], [])
  | r :: rs, g =>
    let row := innerLoop sinA xs ys W H r (List.range xs.length) g
    let rest := outerLoop xs ys W H rs row.1
    (rest.1, row.2.1 ++ rest.2.1,
      (row.2.2 ++ [rightOuterEdge ys W H r]) ++ rest.2.2)

/-- The complete `horizontal_edges` and `vertical_edges` arrays built by
`generate` (lib.rs 663-724): the outer loop over all rows followed by the
bottom outer edges. -/
def buildEdges (xs ys : List ℚ) (W H : ℚ) (g0 : EdgeContourGenerator) :
    List Edge × List Edge :=
  let main := outerLoop sinA xs ys W H (List.range ys.length) g0
  (main.2.1 ++ (List.range xs.length).map (bottomOuterEdge xs W H), main.2.2)

/-- The geometric content of a `JigsawPiece` relevant to the edge claims:
its index, start point and the four stored edges (lib.rs 806-821, fields
`index`, `start_point`, `top_edge`, `right_edge`, `bottom_edge`, `left_edge`).
`JigsawPiece::new` stores clones of the edges it is given (lib.rs 873-877);
the crop-rectangle fields are modelled separately by `cropRect` below. -/
structure JigsawPieceEdges where
  index : ℕ
  start_point : ℚ × ℚ
  top_edge : Edge
  right_edge : Edge
  bottom_edge : Edge
  left_edge : Edge
deriving DecidableEq

/-- Placeholder edge used as the (never-reached) `getD` default for in-bounds
edge lookups. -/
def defaultEdge : Edge := .straightEdge ⟨(0, 0), (0, 0)⟩

/-- The piece built at flat index `i` of the piece loop (lib.rs 726-752):
edges are looked up in the two flat arrays at the `get_border_indices`
positions; the start point is `(xs[i % cols], ys[i / cols])` because the loop
runs row-major over `ys × xs`. -/
def pieceAt (xs ys : List ℚ) (hs vs : List Edge) (cols : ℕ) (i : ℕ) :
    JigsawPieceEdges :=
  let idx := get_border_indices i cols
  { index := i
    start_point := (xs.getD (i % cols) 0, ys.getD (i / cols) 0)
    top_edge := hs.getD idx.1 defaultEdge
    right_edge := vs.getD idx.2.1 defaultEdge
    bottom_edge := hs.getD idx.2.2.1 defaultEdge
    left_edge := vs.getD idx.2.2.2 defaultEdge }

/-- All pieces of the template, in the order the piece loop creates them. -/
def generatedPieces (xs ys : List ℚ) (hs vs : List Edge) (cols rows : ℕ) :
    List JigsawPieceEdges :=
  (List.range (rows * cols)).map (pieceAt xs ys hs vs cols)

/-- The edge-geometry part of `JigsawGenerator::generate` (lib.rs 639-760) for
an already-constructed generator state `g0`: axis subdivision, edge grid, and
piece assembly. -/
def generateEdgeGeometry (W H : ℚ) (cols rows : ℕ)
    (g0 : EdgeContourGenerator) : List JigsawPieceEdges :=
  let xs := (divide_axis W cols).1
  let ys := (divide_axis H rows).1
  let b := buildEdges sinA xs ys W H g0
  generatedPieces xs ys b.1 b.2 cols rows

/-! ### A relational view of the generation run, for the determinism claim.
A run of the (stateful, imperative) edge-construction phase is modelled as a
derivation: each constructor records one loop iteration together with the
state it consumed and produced.  Determinism is then a theorem about
derivations, not a definitional triviality. -/

/-- One run of the inner loop as a derivation (one `cons` per column). -/
inductive InnerRel (xs ys : List ℚ) (W H : ℚ) (r : ℕ) :
    List ℕ → EdgeContourGenerator → EdgeContourGenerator →
    List Edge → List Edge → Prop
  | nil (g : EdgeContourGenerator) : InnerRel xs ys W H r [] g g [] []
  | cons {c : ℕ} {cs : List ℕ} {g g1 g2 g' : EdgeContourGenerator}
      {hE vE : Edge} {hs vs : List Edge} :
      mkHorizontalEdge sinA xs ys W r c g = (hE, g1) →
      mkVerticalEdge sinA xs ys H r c g1 = (vE, g2) →
      InnerRel xs ys W H r cs g2 g' hs vs →
      InnerRel xs ys W H r (c :: cs) g g' (hE :: hs) (vE :: vs)

/-- One run of the outer loop as a derivation (one `cons` per row). -/
inductive OuterRel (xs ys : List ℚ) (W H : ℚ) :
    List ℕ → EdgeContourGenerator → EdgeContourGenerator →
    List Edge → List Edge → Prop
  | nil (g : EdgeContourGenerator) : OuterRel xs ys W H [] g g [] []
  | cons {r : ℕ} {rs : List ℕ} {g g1 g' : EdgeContourGenerator}
      {hsr vsr hs vs : List Edge} :
      InnerRel sinA xs ys W H r (List.range xs.length) g g1 hsr vsr →
      OuterRel xs ys W H rs g1 g' hs vs →
      OuterRel xs ys W H (r :: rs) g g'
        (hsr ++ hs) ((vsr ++ [rightOuterEdge ys W H r]) ++ vs)

/-- States that `generate` over these inputs can produce this piece list: the
generator state is constructed by `EdgeContourGenerator::new` on the piece
dimensions from `divide_axis`, some run of the edge loops produces the two
edge arrays, and the pieces are assembled from them (lib.rs 639-760). -/
def RunProduces (W H : ℚ) (cols rows : ℕ) (tab_size jitter : Option ℚ)
    (seed : Option ℕ) (ps : List JigsawPieceEdges) : Prop :=
  let xs := (divide_axis W cols).1
  let ys := (divide_axis H rows).1
  ∃ g0 gfin hs vs,
    ECGnew sinA (divide_axis W cols).2 (divide_axis H rows).2 tab_size jitter
      seed = .ok g0 ∧
    OuterRel sinA xs ys W H (List.range ys.length) g0 gfin hs vs ∧
    ps = generatedPieces xs ys
      (hs ++ (List.range xs.length).map (bottomOuterEdge xs W H)) vs cols rows

/-! ### The crop rectangle of `JigsawPiece::new` (lib.rs 847-862) -/

/-- The `f32 as u32` cast for the values occurring here: truncation toward
zero, with negative values mapped to 0 (all crop values are far below
`u32::MAX`, whose saturation is therefore irrelevant). -/
def toU32 (x : ℚ) : ℕ := (max ⌊x⌋ 0).toNat

/-- The crop rectangle `(top_left_x, top_left_y, crop_width, crop_height)`
computed by `JigsawPiece::new` (lib.rs 847-862) from the outline's bounding
box `[box_min, box_max]` (which the Rust code obtains from the external
`bezier_rs` crate and is therefore a parameter here), the image size and the
nominal piece size.  The final `if` clamps use `u32` arithmetic; the
subtraction `image_width - top_left_x` is `ℕ`-truncated, matching Rust
whenever `top_left_x ≤ image_width`. -/
def cropRect (box_min box_max : ℚ × ℚ) (image_width image_height : ℕ)
    (piece_width piece_height : ℚ) : ℕ × ℕ × ℕ × ℕ :=
  let piece_width_offset := piece_width * 0.01
  let piece_height_offset := piece_height * 0.01
  let top_left_x := toU32 (max (box_min.1 - piece_width_offset) 0)
  let top_left_y := toU32 (max (box_min.2 - piece_height_offset) 0)
  let crop_width :=
    toU32 (max (box_max.1 - box_min.1 + 2 * piece_width_offset) piece_width)
  let crop_height :=
    toU32 (max (box_max.2 - box_min.2 + 2 * piece_height_offset) piece_height)
  let crop_width :=
    if image_width < top_left_x + crop_width then image_width - top_left_x
    else crop_width
  let crop_height :=
    if image_height < top_left_y + crop_height then image_height - top_left_y
    else crop_height
  (top_left_x, top_left_y, crop_width, crop_height)

/-- A concrete deterministic stand-in for `f32::sin` used wherever a theorem
needs a fully concrete generation run (the abstract `sinA` parameter may be
instantiated with any fixed function; determinism and the structural claims
hold for all of them). -/
def sinZero : ℕ → ℚ := fun _ => 0

/-- A concrete generator state used by concrete instantiations below. -/
def g0ex : EdgeContourGenerator :=
  ⟨100, 100, 1 / 10, 1 / 20, 10, true, 0, 0, 0, 0, 1⟩

/-- The state transition claim C3 attributes to `create`: `dice` applied to
the previously stored `e`, the PREVIOUS `flipped` flag, the CURRENT seed, and
`jitter`.  This follows the claim's words for comparison with the source's
actual call `dice(self.e, false, self.seed + 2, self.jitter)`. -/
def claimedCreateStep (g : EdgeContourGenerator) : EdgeContourGenerator :=
  let r := dice sinA g.e g.flipped g.seed g.jitter
  { g with
      seed := r.1, flipped := r.2.1, a := r.2.2.1, b := r.2.2.2.1,
      c := r.2.2.2.2.1, d := r.2.2.2.2.2.1, e := r.2.2.2.2.2.2 }

/-- C5's asserted property for one piece: the crop rectangle
`(top_left_x, top_left_y, crop_width, crop_height)` contains the piece's
nominal (non-tabbed) rectangle and lies within the image bounds. -/
def cropClaimHolds (sp : ℚ × ℚ) (pw ph : ℚ) (iW iH : ℕ)
    (rect : ℕ × ℕ × ℕ × ℕ) : Prop :=
  (rect.1 : ℚ) ≤ sp.1 ∧ (rect.2.1 : ℚ) ≤ sp.2 ∧
  sp.1 + pw ≤ (rect.1 : ℚ) + (rect.2.2.1 : ℚ) ∧
  sp.2 + ph ≤ (rect.2.1 : ℚ) + (rect.2.2.2 : ℚ) ∧
  rect.1 + rect.2.2.1 ≤ iW ∧ rect.2.1 + rect.2.2.2 ≤ iH

/-- What certainly holds of the outline bounding box that `bezier_rs` returns
for a piece whose outline stays inside the image: the box contains the piece's
corner points (the outline passes through them) and lies within the image
rectangle.  If claim C5 held of the code it would in particular have to hold
for every box satisfying this. -/
def ValidBBox (corners : List (ℚ × ℚ)) (iW iH : ℕ) (bm bx : ℚ × ℚ) : Prop :=
  (∀ p ∈ corners, bm.1 ≤ p.1 ∧ bm.2 ≤ p.2 ∧ p.1 ≤ bx.1 ∧ p.2 ≤ bx.2) ∧
  0 ≤ bm.1 ∧ 0 ≤ bm.2 ∧ bx.1 ≤ (iW : ℚ) ∧ bx.2 ≤ (iH : ℚ)

/-- C5 as stated, instantiated at a 200×100 image cut into 3 columns × 1 row,
for the last-column piece (flat index 2, start point `(xs[2], ys[0])`, corner
x-positions `xs[2]` and the image border 200): for every admissible bounding
box of its outline, the crop rectangle computed by `JigsawPiece::new` contains
the piece's nominal rectangle and stays within the image. -/
def C5ClaimAt : Prop :=
  ∀ bm bx : ℚ × ℚ,
    ValidBBox
      [((divide_axis 200 3).1.getD 2 0, 0), (200, 0),
        ((divide_axis 200 3).1.getD 2 0, 100), (200, 100)] 200 100 bm bx →
    cropClaimHolds ((divide_axis 200 3).1.getD 2 0, 0)
      (divide_axis 200 3).2 (divide_axis 100 1).2 200 100
      (cropRect bm bx 200 100 (divide_axis 200 3).2 (divide_axis 100 1).2)

/-- Default piece for `getD` on the generated piece list. -/
def dPiece : JigsawPieceEdges :=
  ⟨0, (0, 0), defaultEdge, defaultEdge, defaultEdge, defaultEdge⟩

/-- The two flat edge arrays of the template generated for the given inputs. -/
def templateEdges (W H : ℚ) (cols rows : ℕ) (g0 : EdgeContourGenerator) :
    List Edge × List Edge :=
  buildEdges sinA (divide_axis W cols).1 (divide_axis H rows).1 W H g0

/-- The piece with flat index `i` of the generated template. -/
def templatePiece (W H : ℚ) (cols rows : ℕ) (g0 : EdgeContourGenerator)
    (i : ℕ) : JigsawPieceEdges :=
  pieceAt (divide_axis W cols).1 (divide_axis H rows).1
    (templateEdges sinA W H cols rows g0).1
    (templateEdges sinA W H cols rows g0).2 cols i

/-- The initial state `EdgeContourGenerator::new` produces for the concrete
witness run of C1 (piece size 50×50, default tab size and jitter, seed 0,
`sinZero`): tab 0.1, jitter 0.05, seed 8, `flipped = false`,
`a = 0.05`, `b = c = d = e = -0.05`. -/
def ecgW : EdgeContourGenerator :=
  ⟨50, 50, 1 / 10, 1 / 20, 8, false, 1 / 20, -(1 / 20), -(1 / 20), -(1 / 20),
    -(1 / 20)⟩

/-- The pieces of the concrete witness run of C1. -/
def psW : List JigsawPieceEdges :=
  generateEdgeGeometry sinZero 100 100 2 2 ecgW

/-! ### Helper lemmas -/

lemma getD_map_range {α : Type} (f : ℕ → α) (d : α) {n i : ℕ} (h : i < n) :
    ((List.range n).map f).getD i d = f i := by
  rw [List.getD_eq_getElem ((List.range n).map f) d (by simpa using h),
    List.getElem_map, List.getElem_range]

/-! ### Claim theorems -/

/-- C8: `find_divisors` returns exactly the ordered divisor-pair list from
narrowest to widest on 24, 9 and 1. -/
theorem find_divisors_spec :
    find_divisors 24 =
        [(1, 24), (2, 12), (3, 8), (4, 6), (6, 4), (8, 3), (12, 2), (24, 1)] ∧
    find_divisors 9 = [(1, 9), (3, 3), (9, 1)] ∧
    find_divisors 1 = [(1, 1)] :=
  ⟨by decide, by decide, by decide⟩

/-- C6: for `n ≥ 1` the axis partitioner returns exactly `n` start-offsets,
segment `i` starting at `round(i * segment_length)` with uniform segment
length `round(L / n)`; concretely, a 1000-pixel axis split into 4 pieces
yields length 250 and starts `[0, 250, 500, 750]`. -/
theorem divide_axis_spec (L : ℚ) (n : ℕ) (_hn : 1 ≤ n) :
    (divide_axis L n).1.length = n ∧
    (divide_axis L n).2 = round (L / (n : ℚ)) ∧
    (∀ i, i < n →
      (divide_axis L n).1.getD i 0 = round ((i : ℚ) * round (L / (n : ℚ)))) ∧
    divide_axis 1000 4 = ([0, 250, 500, 750], 250) := by
  refine ⟨by simp only [divide_axis, List.length_map, List.length_range], rfl,
    fun i hi => ?_, by norm_num [divide_axis, round, roundAway, List.range_succ]⟩
  simp only [divide_axis]
  exact getD_map_range (fun s : ℕ => round ((s : ℚ) * round (L / (n : ℚ)))) 0 hi

theorem divide_axis_spec_witness :
    1 ≤ 4 ∧ (divide_axis 1000 4).1.length = 4 ∧
      (divide_axis 1000 4).1.getD 2 0 = round ((2 : ℚ) * round (1000 / (4 : ℚ))) :=
  ⟨by norm_num, (divide_axis_spec 1000 4 (by norm_num)).1,
    (divide_axis_spec 1000 4 (by norm_num)).2.2.1 2 (by norm_num)⟩

/-- C7 counterexample: at piece count 0 the axis partitioner does NOT fail —
`divide_axis` has no failure channel at all (its Rust type is
`(Vec<f32>, f32)`, and `f32` division by zero is well defined), and at
`piece_num = 0` it returns the normal value `(vec![], _)`; the generation
entry point then goes on to return `Ok` with zero pieces. -/
theorem divide_axis_zero_counterexample :
    (divide_axis 1000 0).1 = [] ∧
    generateEdgeGeometry sinZero 1000 800 0 2 g0ex = [] := by
  constructor
  · simp [divide_axis]
  · simp [generateEdgeGeometry, generatedPieces]

/-- C7 amended: `divide_axis` with piece count 0 returns normally: an empty
start-offset list (the Rust piece length is `∞ = L / 0.0` in `f32`, not an
error), and a generation run with 0 columns produces a template with an empty
piece list rather than reporting a failure. -/
theorem divide_axis_zero (L : ℚ) :
    (divide_axis L 0).1 = [] ∧
    ∀ (s : ℕ → ℚ) (Hq : ℚ) (rows : ℕ) (g0 : EdgeContourGenerator),
      generateEdgeGeometry s L Hq 0 rows g0 = [] := by
  refine ⟨by simp [divide_axis], fun s Hq rows g0 => ?_⟩
  simp [generateEdgeGeometry, generatedPieces]

theorem divide_axis_zero_witness :
    (divide_axis 555 0).1 = [] ∧
    generateEdgeGeometry sinZero 555 100 0 3 g0ex = [] :=
  ⟨(divide_axis_zero 555).1, (divide_axis_zero 555).2 sinZero 100 3 g0ex⟩

/-- C2 counterexample: constructing an `EdgeContourGenerator` with
`tab_size = 50` (so `tab_size / 200 = 0.25`, outside the closed range
`[0.05, 0.15]`) makes the Rust `assert!` at lib.rs 160 fail, i.e. the
constructor panics — it does not return an error value (its Rust return type,
the bare struct, has no error channel). -/
theorem ECGnew_panic_counterexample :
    ECGnew sinZero 100 100 (some 50) none none = .error .assertionFailed := by
  norm_num [ECGnew]

/-- C2 amended: out-of-range `tab_size` or `jitter` make
`EdgeContourGenerator::new` fail its `assert!` — a panic, not a returned error
value — while in-range parameters always construct successfully. -/
theorem ECGnew_assert_spec (s : ℕ → ℚ) (pw ph tab jit : ℚ) (seed : Option ℕ) :
    (¬ ((0.05 : ℚ) ≤ tab / 200 ∧ tab / 200 ≤ (0.15 : ℚ)) →
      ECGnew s pw ph (some tab) (some jit) seed = .error .assertionFailed) ∧
    (((0.05 : ℚ) ≤ tab / 200 ∧ tab / 200 ≤ (0.15 : ℚ)) →
      ¬ ((0 : ℚ) ≤ jit / 100 ∧ jit / 100 ≤ (0.13 : ℚ)) →
      ECGnew s pw ph (some tab) (some jit) seed = .error .assertionFailed) ∧
    (((0.05 : ℚ) ≤ tab / 200 ∧ tab / 200 ≤ (0.15 : ℚ)) →
      ((0 : ℚ) ≤ jit / 100 ∧ jit / 100 ≤ (0.13 : ℚ)) →
      ∃ g, ECGnew s pw ph (some tab) (some jit) seed = .ok g) := by
  refine ⟨fun h => ?_, fun h1 h2 => ?_, fun h1 h2 => ?_⟩
  · simp only [ECGnew, Option.getD_some, if_neg h]
  · simp only [ECGnew, Option.getD_some, if_pos h1, if_neg h2]
  · simp only [ECGnew, Option.getD_some, if_pos h1, if_pos h2]
    exact ⟨_, rfl⟩

theorem ECGnew_assert_spec_witness :
    ECGnew sinZero 100 100 (some 20) (some 500) none = .error .assertionFailed :=
  (ECGnew_assert_spec sinZero 100 100 20 500 none).2.1 (by norm_num)
    (by norm_num)

/-- C3 counterexample: at a concrete state (seed 10, flipped = true) the state
`create` actually stores differs from the claim's transition: the source calls
`dice(e, false, seed + 2, jitter)`, not `dice(e, flipped, seed, jitter)` — the
stored seed becomes 18, not 16, and the sign of `a` also differs. -/
theorem create_claimed_step_counterexample :
    (create sinZero g0ex (0, 0) (100, 0)).2 ≠ claimedCreateStep sinZero g0ex := by
  intro h
  have hseed := congrArg EdgeContourGenerator.seed h
  simp [create, claimedCreateStep, dice, g0ex] at hseed

/-- C3 amended: each `create` call advances the state by
`dice(e_prev, false, seed + 2, jitter)` (the source passes the constant
`false` and `seed + 2`, not the previous `flipped` flag and the current seed);
`dice` itself computes `new_flipped = rbool(seed)`,
`a = -e` iff `new_flipped` equals the flag it was passed,
`b, c, d, e = uniform(-jitter, jitter, seed+2 .. seed+5)` and returns
`seed + 6`.  Consequently `create` draws `rbool` at `seed + 2`, `uniform` at
`seed + 4 .. seed + 7` and stores `seed + 8`. -/
theorem create_dice_transition (s : ℕ → ℚ) (g : EdgeContourGenerator)
    (sp ep : ℚ × ℚ) :
    (∀ e f sd j, dice s e f sd j =
      (sd + 6, rbool s sd, (if rbool s sd = f then -e else e),
        uniform s (-j) j (sd + 2), uniform s (-j) j (sd + 3),
        uniform s (-j) j (sd + 4), uniform s (-j) j (sd + 5))) ∧
    (create s g sp ep).2.seed = g.seed + 8 ∧
    (create s g sp ep).2.flipped = rbool s (g.seed + 2) ∧
    (create s g sp ep).2.a =
      (if rbool s (g.seed + 2) = false then -g.e else g.e) ∧
    (create s g sp ep).2.b = uniform s (-g.jitter) g.jitter (g.seed + 4) ∧
    (create s g sp ep).2.c = uniform s (-g.jitter) g.jitter (g.seed + 5) ∧
    (create s g sp ep).2.d = uniform s (-g.jitter) g.jitter (g.seed + 6) ∧
    (create s g sp ep).2.e = uniform s (-g.jitter) g.jitter (g.seed + 7) := by
  exact ⟨fun e f sd j => rfl, rfl, rfl, rfl, rfl, rfl, rfl, rfl⟩

/-- C9: `optimal_aspect_ratio` returns the head candidate immediately when its
width/height difference is below 1; with the difference not yet below 1 it
stops scanning as soon as the difference increases, returning the best so
far; and on the two concrete candidate lists it returns `(6, 4)` for a
666×666 image and `(5, 5)` for a 1024×768 image. -/
theorem optimal_aspect_ratio_spec :
    (∀ (Wq Hq : ℚ) (x y : ℕ) (rest : List (ℕ × ℕ)),
      |Wq / (x : ℚ) - Hq / (y : ℚ)| < 1 →
      optimal_aspect_ratio ((x, y) :: rest) Wq Hq = .ok (x, y)) ∧
    (∀ (Wq Hq : ℚ) (x1 y1 x2 y2 : ℕ) (rest : List (ℕ × ℕ)),
      ¬ |Wq / (x1 : ℚ) - Hq / (y1 : ℚ)| < 1 →
      ¬ |Wq / (x2 : ℚ) - Hq / (y2 : ℚ)| < 1 →
      |Wq / (x1 : ℚ) - Hq / (y1 : ℚ)| ≤ f32Max →
      |Wq / (x1 : ℚ) - Hq / (y1 : ℚ)| < |Wq / (x2 : ℚ) - Hq / (y2 : ℚ)| →
      optimal_aspect_ratio ((x1, y1) :: (x2, y2) :: rest) Wq Hq = .ok (x1, y1)) ∧
    optimal_aspect_ratio
        [(1, 24), (2, 12), (3, 8), (4, 6), (6, 4), (8, 3), (12, 2), (24, 1)]
        666 666 = .ok (6, 4) ∧
    optimal_aspect_ratio [(1, 25), (5, 5), (25, 1)] 1024 768 = .ok (5, 5) := by
  refine ⟨fun Wq Hq x y rest h => ?_, fun Wq Hq x1 y1 x2 y2 rest h1 h2 hM hlt => ?_,
    by norm_num [ optimal_aspect_ratio, oarGo, f32Max, abs],
    by norm_num [ optimal_aspect_ratio, oarGo, f32Max, abs]⟩
  · show Except.ok (oarGo Wq Hq ((x, y) :: rest) f32Max (x, y)) = _
    rw [oarGo, if_pos h]
  · show Except.ok
        (oarGo Wq Hq ((x1, y1) :: (x2, y2) :: rest) f32Max (x1, y1)) = _
    rw [oarGo, if_neg h1, if_pos hM, oarGo, if_neg h2, if_neg (not_le.mpr hlt)]

theorem optimal_aspect_ratio_spec_witness :
    optimal_aspect_ratio [(1, 1)] 100 100 = .ok (1, 1) ∧
    optimal_aspect_ratio [(4, 6), (8, 3)] 666 666 = .ok (4, 6) :=
  ⟨optimal_aspect_ratio_spec.1 100 100 1 1 [] (by norm_num [abs]),
    optimal_aspect_ratio_spec.2.1 666 666 4 6 8 3 [] (by norm_num [abs])
      (by norm_num [abs]) (by norm_num [f32Max, abs]) (by norm_num [abs])⟩

/-! ### C5: the crop rectangle -/

lemma toU32_le {q : ℚ} (h : 0 ≤ q) : (toU32 q : ℚ) ≤ q := by
  have h0 : (0 : ℤ) ≤ ⌊q⌋ := Int.floor_nonneg.mpr h
  have hcast : ((toU32 q : ℕ) : ℚ) = ((⌊q⌋ : ℤ) : ℚ) := by
    simp only [toU32, max_eq_left h0]
    exact_mod_cast congrArg (fun z : ℤ => (z : ℚ)) (Int.toNat_of_nonneg h0)
  rw [hcast]
  exact Int.floor_le q

lemma floor_le_toU32 {q r : ℚ} (h : q ≤ r) : ⌊q⌋ ≤ (toU32 r : ℤ) := by
  simp only [toU32]
  rw [Int.toNat_of_nonneg (le_max_right _ _)]
  exact le_trans (Int.floor_mono h) (le_max_left _ _)

lemma clamp_le (t c n : ℕ) (h : t ≤ n) :
    t + (if n < t + c then n - t else c) ≤ n := by
  split <;> omega

lemma divide_200_3 :
    divide_axis 200 3 = ([0, 6667 / 100, 13334 / 100], 6667 / 100) := by
  norm_num [divide_axis, round, roundAway, List.range_succ]

lemma divide_100_1 : divide_axis 100 1 = ([0], 100) := by
  norm_num [divide_axis, round, roundAway, List.range_succ]

/-- C5 counterexample: for a 200×100 image in a 3×1 grid the nominal rectangle
of the last column piece is `[133.34, 200.01] × [0, 100]` — `round(200/3) =
66.67` and `133.34 + 66.67 = 200.01` overflows the image — so the crop
rectangle, which `JigsawPiece::new` clamps to the image, cannot contain it.
Concretely, with the admissible bounding box `((133.34, 0), (200, 100))` the
code computes the crop rectangle `(132, 0, 67, 100)`, and
`133.34 + 66.67 > 132 + 67 = 199`. -/
theorem crop_containment_counterexample : ¬ C5ClaimAt := by
  intro h
  have h2 := h (13334 / 100, 0) (200, 100) ?valid
  case valid =>
    rw [divide_200_3]
    norm_num [ValidBBox, List.getD]
  rw [divide_200_3, divide_100_1] at h2
  norm_num [cropClaimHolds, cropRect, toU32, List.getD] at h2
  have h3 := h2.2.1
  rw [show Int.toNat 132 = 132 from rfl, show Int.toNat 67 = 67 from rfl] at h3
  norm_num at h3

/-- C5 amended: for every bounding-box input the crop rectangle lies within
the image bounds (given only that its unclamped top-left does, which holds for
every real outline since `box_min` is below the piece's corner coordinates);
its top-left never exceeds the piece's nominal top-left; and its width/height
BEFORE the final image-bound clamp are at least the (floor of the) nominal
piece width/height.  Full containment of the nominal rectangle can fail only
through the final clamp, when the nominal rectangle itself overflows the image
(the last-column/row rounding overshoot of `divide_axis`). -/
theorem cropRect_spec (bm bx : ℚ × ℚ) (iW iH : ℕ) (pw ph : ℚ) (sx sy : ℚ)
    (hpw : 0 ≤ pw) (hph : 0 ≤ ph) (hbx : bm.1 ≤ sx) (hsx : 0 ≤ sx)
    (hby : bm.2 ≤ sy) (hsy : 0 ≤ sy)
    (hW : toU32 (max (bm.1 - pw * 0.01) 0) ≤ iW)
    (hH : toU32 (max (bm.2 - ph * 0.01) 0) ≤ iH) :
    (cropRect bm bx iW iH pw ph).1 + (cropRect bm bx iW iH pw ph).2.2.1 ≤ iW ∧
    (cropRect bm bx iW iH pw ph).2.1 + (cropRect bm bx iW iH pw ph).2.2.2 ≤ iH ∧
    ((cropRect bm bx iW iH pw ph).1 : ℚ) ≤ sx ∧
    ((cropRect bm bx iW iH pw ph).2.1 : ℚ) ≤ sy ∧
    ⌊pw⌋ ≤ (toU32 (max (bx.1 - bm.1 + 2 * (pw * 0.01)) pw) : ℤ) ∧
    ⌊ph⌋ ≤ (toU32 (max (bx.2 - bm.2 + 2 * (ph * 0.01)) ph) : ℤ) := by
  have offx : (0 : ℚ) ≤ pw * 0.01 := mul_nonneg hpw (by norm_num)
  have offy : (0 : ℚ) ≤ ph * 0.01 := mul_nonneg hph (by norm_num)
  refine ⟨?_, ?_, ?_, ?_, ?_, ?_⟩
  · exact clamp_le _ _ _ hW
  · exact clamp_le _ _ _ hH
  · exact le_trans (toU32_le (le_max_right _ _))
      (max_le (by linarith) hsx)
  · exact le_trans (toU32_le (le_max_right _ _))
      (max_le (by linarith) hsy)
  · exact floor_le_toU32 (le_max_right _ _)
  · exact floor_le_toU32 (le_max_right _ _)

/-! ### C4: edge sharing and border edges -/

lemma divide_axis_length (L : ℚ) (n : ℕ) : (divide_axis L n).1.length = n := by
  simp only [divide_axis, List.length_map, List.length_range]

lemma rangeGetD {n j : ℕ} (h : j < n) : (List.range n).getD j 0 = j := by
  rw [List.getD_eq_getElem _ _ (by simpa using h), List.getElem_range]

lemma innerLoop_h_length (xs ys : List ℚ) (W H : ℚ) (r : ℕ) (cs : List ℕ) :
    ∀ g, (innerLoop sinA xs ys W H r cs g).2.1.length = cs.length := by
  induction cs with
  | nil => intro g; rfl
  | cons c cs ih => intro g; simp [innerLoop, ih]

lemma innerLoop_v_length (xs ys : List ℚ) (W H : ℚ) (r : ℕ) (cs : List ℕ) :
    ∀ g, (innerLoop sinA xs ys W H r cs g).2.2.length = cs.length := by
  induction cs with
  | nil => intro g; rfl
  | cons c cs ih => intro g; simp [innerLoop, ih]

/-- In row 0 every horizontal edge is the straight top-border edge, whatever
the generator state (the state still advances through the vertical edges). -/
lemma innerLoop_row0_h (xs ys : List ℚ) (W H : ℚ) (cs : List ℕ) :
    ∀ g, (innerLoop sinA xs ys W H 0 cs g).2.1 = cs.map (topBorderEdge xs W) := by
  induction cs with
  | nil => intro g; rfl
  | cons c cs ih => intro g; simp [innerLoop, mkHorizontalEdge, ih]

/-- The first vertical edge of each row is the straight left-border edge. -/
lemma innerLoop_v_head (xs ys : List ℚ) (W H : ℚ) (r : ℕ) (cs : List ℕ)
    (g : EdgeContourGenerator) :
    (innerLoop sinA xs ys W H r (0 :: cs) g).2.2.getD 0 defaultEdge =
      leftBorderEdge ys H r := by
  simp [innerLoop, mkVerticalEdge]

lemma outerLoop_h_length (xs ys : List ℚ) (W H : ℚ) (rs : List ℕ) :
    ∀ g, (outerLoop sinA xs ys W H rs g).2.1.length = rs.length * xs.length := by
  induction rs with
  | nil => intro g; simp [outerLoop]
  | cons r rs ih =>
    intro g
    simp only [outerLoop, List.length_append, innerLoop_h_length, ih,
      List.length_cons, List.length_range]
    ring

lemma outerLoop_v_length (xs ys : List ℚ) (W H : ℚ) (rs : List ℕ) :
    ∀ g, (outerLoop sinA xs ys W H rs g).2.2.length =
      rs.length * (xs.length + 1) := by
  induction rs with
  | nil => intro g; simp [outerLoop]
  | cons r rs ih =>
    intro g
    simp only [outerLoop, List.length_append, innerLoop_v_length, ih,
      List.length_cons, List.length_singleton, List.length_range,
      List.length_nil]
    ring

/-- Length of one row's block of vertical edges. -/
lemma rowBlock_v_length (xs ys : List ℚ) (W H : ℚ) (r : ℕ)
    (g : EdgeContourGenerator) :
    ((innerLoop sinA xs ys W H r (List.range xs.length) g).2.2 ++
      [rightOuterEdge ys W H r]).length = xs.length + 1 := by
  simp [innerLoop_v_length]

/-- The vertical edge at position `j * (cols + 1)` is the straight left-border
edge of the `j`-th processed row. -/
lemma outerLoop_v_left (xs ys : List ℚ) (W H : ℚ) (hL : 0 < xs.length)
    (rs : List ℕ) :
    ∀ (j : ℕ) (g : EdgeContourGenerator), j < rs.length →
      (outerLoop sinA xs ys W H rs g).2.2.getD (j * (xs.length + 1))
        defaultEdge = leftBorderEdge ys H (rs.getD j 0) := by
  induction rs with
  | nil => intro j g hj; exact absurd hj (by simp)
  | cons r rs ih =>
    intro j g hj
    simp only [outerLoop]
    match j with
    | 0 =>
      rw [Nat.zero_mul,
        List.getD_append _ _ _ _ (by rw [rowBlock_v_length]; omega),
        List.getD_append _ _ _ _ (by rw [innerLoop_v_length]; simpa using hL)]
      obtain ⟨k, hk⟩ := Nat.exists_eq_succ_of_ne_zero (Nat.pos_iff_ne_zero.mp hL)
      rw [hk, List.range_succ_eq_map]
      exact innerLoop_v_head sinA xs ys W H r _ g
    | j + 1 =>
      have hlen : ((innerLoop sinA xs ys W H r (List.range xs.length) g).2.2 ++
          [rightOuterEdge ys W H r]).length ≤ (j + 1) * (xs.length + 1) := by
        rw [rowBlock_v_length]
        calc xs.length + 1 = 1 * (xs.length + 1) := (Nat.one_mul _).symm
          _ ≤ (j + 1) * (xs.length + 1) := Nat.mul_le_mul_right _ (by omega)
      rw [List.getD_append_right _ _ _ _ hlen, rowBlock_v_length]
      have hidx : (j + 1) * (xs.length + 1) - (xs.length + 1) =
          j * (xs.length + 1) := by
        rw [Nat.succ_mul]; omega
      rw [hidx]
      exact ih j _ (by simpa using hj)

/-- The vertical edge at position `j * (cols + 1) + cols` is the straight
right-outer edge of the `j`-th processed row. -/
lemma outerLoop_v_right (xs ys : List ℚ) (W H : ℚ) (rs : List ℕ) :
    ∀ (j : ℕ) (g : EdgeContourGenerator), j < rs.length →
      (outerLoop sinA xs ys W H rs g).2.2.getD
        (j * (xs.length + 1) + xs.length) defaultEdge =
        rightOuterEdge ys W H (rs.getD j 0) := by
  induction rs with
  | nil => intro j g hj; exact absurd hj (by simp)
  | cons r rs ih =>
    intro j g hj
    simp only [outerLoop]
    match j with
    | 0 =>
      rw [Nat.zero_mul, Nat.zero_add,
        List.getD_append _ _ _ _ (by rw [rowBlock_v_length]; omega),
        List.getD_append_right _ _ _ _
          (by rw [innerLoop_v_length, List.length_range]),
        innerLoop_v_length, List.length_range, Nat.sub_self]
      simp
    | j + 1 =>
      have hlen : ((innerLoop sinA xs ys W H r (List.range xs.length) g).2.2 ++
          [rightOuterEdge ys W H r]).length ≤
          (j + 1) * (xs.length + 1) + xs.length := by
        rw [rowBlock_v_length]
        calc xs.length + 1 = 1 * (xs.length + 1) := (Nat.one_mul _).symm
          _ ≤ (j + 1) * (xs.length + 1) := Nat.mul_le_mul_right _ (by omega)
          _ ≤ (j + 1) * (xs.length + 1) + xs.length := Nat.le_add_right _ _
      rw [List.getD_append_right _ _ _ _ hlen, rowBlock_v_length]
      have hidx : (j + 1) * (xs.length + 1) + xs.length - (xs.length + 1) =
          j * (xs.length + 1) + xs.length := by
        rw [Nat.succ_mul]; omega
      rw [hidx]
      exact ih j _ (by simpa using hj)

/-- When the row list starts with row 0, the first `cols` horizontal edges are
the straight top-border edges. -/
lemma outerLoop_h_first (xs ys : List ℚ) (W H : ℚ) (rs : List ℕ)
    (g : EdgeContourGenerator) (c : ℕ) (hc : c < xs.length) :
    (outerLoop sinA xs ys W H (0 :: rs) g).2.1.getD c defaultEdge =
      topBorderEdge xs W c := by
  simp only [outerLoop]
  rw [List.getD_append _ _ _ _
    (by rw [innerLoop_h_length]; simpa using hc)]
  rw [innerLoop_row0_h]
  exact getD_map_range _ _ hc

lemma buildEdges_h_top (xs ys : List ℚ) (W H : ℚ)
    (g0 : EdgeContourGenerator) (hrows : 0 < ys.length) (c : ℕ)
    (hc : c < xs.length) :
    (buildEdges sinA xs ys W H g0).1.getD c defaultEdge =
      topBorderEdge xs W c := by
  simp only [buildEdges]
  rw [List.getD_append _ _ _ _ (by
    rw [outerLoop_h_length]
    calc c < xs.length := hc
      _ = 1 * xs.length := (Nat.one_mul _).symm
      _ ≤ (List.range ys.length).length * xs.length :=
        Nat.mul_le_mul_right _ (by simpa using hrows))]
  obtain ⟨k, hk⟩ := Nat.exists_eq_succ_of_ne_zero (Nat.pos_iff_ne_zero.mp hrows)
  rw [hk, List.range_succ_eq_map]
  exact outerLoop_h_first sinA xs ys W H _ g0 c hc

lemma buildEdges_h_bottom (xs ys : List ℚ) (W H : ℚ)
    (g0 : EdgeContourGenerator) (c : ℕ) (hc : c < xs.length) :
    (buildEdges sinA xs ys W H g0).1.getD (ys.length * xs.length + c)
      defaultEdge = bottomOuterEdge xs W H c := by
  simp only [buildEdges]
  rw [List.getD_append_right _ _ _ _ (by
    rw [outerLoop_h_length, List.length_range]; exact Nat.le_add_right _ _)]
  rw [outerLoop_h_length, List.length_range, Nat.add_sub_cancel_left]
  exact getD_map_range _ _ hc

lemma buildEdges_v_left (xs ys : List ℚ) (W H : ℚ)
    (g0 : EdgeContourGenerator) (hL : 0 < xs.length) (j : ℕ)
    (hj : j < ys.length) :
    (buildEdges sinA xs ys W H g0).2.getD (j * (xs.length + 1)) defaultEdge =
      leftBorderEdge ys H j := by
  simp only [buildEdges]
  have h := outerLoop_v_left sinA xs ys W H hL (List.range ys.length) j g0
    (by simpa using hj)
  rwa [rangeGetD hj] at h

lemma buildEdges_v_right (xs ys : List ℚ) (W H : ℚ)
    (g0 : EdgeContourGenerator) (j : ℕ) (hj : j < ys.length) :
    (buildEdges sinA xs ys W H g0).2.getD (j * (xs.length + 1) + xs.length)
      defaultEdge = rightOuterEdge ys W H j := by
  simp only [buildEdges]
  have h := outerLoop_v_right sinA xs ys W H (List.range ys.length) j g0
    (by simpa using hj)
  rwa [rangeGetD hj] at h

/-- C4: in a generated template, the piece at grid position `(r, c)` (flat
index `r·cols + c`) shares its right edge — the identical `Edge` value, hence
identical control points — with the left edge of its right neighbour, and its
bottom edge with the top edge of its bottom neighbour; and every border side
is the corresponding straight edge lying on the image boundary (`y = 0` on the
top row, `y = H` on the bottom row, `x = 0` in the left column, `x = W` in the
right column). -/
theorem edge_sharing_and_borders (s : ℕ → ℚ) (W H : ℚ) (cols rows : ℕ)
    (g0 : EdgeContourGenerator) (r c : ℕ) (hr : r < rows) (hc : c < cols) :
    ((generateEdgeGeometry s W H cols rows g0).getD (r * cols + c) dPiece =
      templatePiece s W H cols rows g0 (r * cols + c)) ∧
    (c + 1 < cols →
      (templatePiece s W H cols rows g0 (r * cols + c)).right_edge =
        (templatePiece s W H cols rows g0 (r * cols + c + 1)).left_edge) ∧
    (r + 1 < rows →
      (templatePiece s W H cols rows g0 (r * cols + c)).bottom_edge =
        (templatePiece s W H cols rows g0 ((r + 1) * cols + c)).top_edge) ∧
    (r = 0 →
      (templatePiece s W H cols rows g0 (r * cols + c)).top_edge =
        topBorderEdge (divide_axis W cols).1 W c) ∧
    (r = rows - 1 →
      (templatePiece s W H cols rows g0 (r * cols + c)).bottom_edge =
        bottomOuterEdge (divide_axis W cols).1 W H c) ∧
    (c = 0 →
      (templatePiece s W H cols rows g0 (r * cols + c)).left_edge =
        leftBorderEdge (divide_axis H rows).1 H r) ∧
    (c = cols - 1 →
      (templatePiece s W H cols rows g0 (r * cols + c)).right_edge =
        rightOuterEdge (divide_axis H rows).1 W H r) := by
  have hcols : 0 < cols := lt_of_le_of_lt (Nat.zero_le c) hc
  have hrows : 0 < rows := lt_of_le_of_lt (Nat.zero_le r) hr
  have hdiv : (r * cols + c) / cols = r := by
    rw [show r * cols + c = c + cols * r by ring,
      Nat.add_mul_div_left _ _ hcols, Nat.div_eq_of_lt hc, Nat.zero_add]
  have hmem : r * cols + c < rows * cols := by
    calc r * cols + c < r * cols + cols := Nat.add_lt_add_left hc _
      _ = (r + 1) * cols := by ring
      _ ≤ rows * cols := Nat.mul_le_mul_right _ hr
  refine ⟨?_, ?_, ?_, ?_, ?_, ?_, ?_⟩
  · simp only [generateEdgeGeometry, generatedPieces]
    rw [getD_map_range _ _ hmem]
    rfl
  · intro hc1
    have hdiv2 : (r * cols + c + 1) / cols = r := by
      rw [show r * cols + c + 1 = (c + 1) + cols * r by ring,
        Nat.add_mul_div_left _ _ hcols, Nat.div_eq_of_lt hc1, Nat.zero_add]
    simp only [templatePiece, pieceAt, get_border_indices, hdiv, hdiv2]
  · intro _
    have hidx : (r + 1) * cols + c = r * cols + c + cols := by ring
    simp only [templatePiece, pieceAt, get_border_indices, hidx]
  · intro h0
    subst h0
    simp only [templatePiece, pieceAt, get_border_indices, templateEdges,
      Nat.zero_mul, Nat.zero_add]
    exact buildEdges_h_top s (divide_axis W cols).1 (divide_axis H rows).1
      W H g0 (by rw [divide_axis_length]; exact hrows) c
      (by rw [divide_axis_length]; exact hc)
  · intro hlast
    subst hlast
    obtain ⟨k, hk⟩ := Nat.exists_eq_succ_of_ne_zero (Nat.pos_iff_ne_zero.mp hrows)
    subst hk
    simp only [Nat.succ_sub_one]
    have hidx : k * cols + c + cols = (k + 1) * cols + c := by ring
    simp only [templatePiece, pieceAt, get_border_indices, templateEdges, hidx]
    have h := buildEdges_h_bottom s (divide_axis W cols).1
      (divide_axis H (k + 1)).1 W H g0 c (by rw [divide_axis_length]; exact hc)
    rwa [divide_axis_length, divide_axis_length] at h
  · intro h0
    subst h0
    have hidx : r * cols + 0 + r = r * (cols + 1) := by ring
    simp only [templatePiece, pieceAt, get_border_indices, templateEdges, hdiv,
      hidx]
    have h := buildEdges_v_left s (divide_axis W cols).1
      (divide_axis H rows).1 W H g0
      (by rw [divide_axis_length]; exact hcols) r
      (by rw [divide_axis_length]; exact hr)
    rwa [divide_axis_length] at h
  · intro hlast
    subst hlast
    have h1 : (cols - 1) + 1 = cols := Nat.succ_pred_eq_of_pos hcols
    have hidx : r * cols + (cols - 1) + 1 + r = r * (cols + 1) + (cols - 1) + 1 := by
      ring
    have hidx2 : r * (cols + 1) + (cols - 1) + 1 = r * (cols + 1) + cols := by
      omega
    simp only [templatePiece, pieceAt, get_border_indices, templateEdges, hdiv,
      hidx, hidx2]
    have h := buildEdges_v_right s (divide_axis W cols).1
      (divide_axis H rows).1 W H g0 r (by rw [divide_axis_length]; exact hr)
    rwa [divide_axis_length] at h

theorem edge_sharing_and_borders_witness :
    0 < 2 ∧
    ((generateEdgeGeometry sinZero 100 100 2 2 g0ex).getD 0 dPiece =
      templatePiece sinZero 100 100 2 2 g0ex 0) ∧
    (0 + 1 < 2 →
      (templatePiece sinZero 100 100 2 2 g0ex 0).right_edge =
        (templatePiece sinZero 100 100 2 2 g0ex 1).left_edge) := by
  have h := edge_sharing_and_borders sinZero 100 100 2 2 g0ex 0 0
    (by norm_num) (by norm_num)
  exact ⟨by norm_num, by simpa using h.1,
    fun h1 => by simpa using h.2.1 h1⟩

/-! ### C1: determinism of the generation run -/

lemma innerRel_det (xs ys : List ℚ) (W H : ℚ) (r : ℕ) {cs : List ℕ}
    {g gA : EdgeContourGenerator} {hsA vsA : List Edge}
    (h1 : InnerRel sinA xs ys W H r cs g gA hsA vsA) :
    ∀ {gB : EdgeContourGenerator} {hsB vsB : List Edge},
      InnerRel sinA xs ys W H r cs g gB hsB vsB →
      gA = gB ∧ hsA = hsB ∧ vsA = vsB := by
  induction h1 with
  | nil g =>
    intro gB hsB vsB h2
    cases h2
    exact ⟨rfl, rfl, rfl⟩
  | cons hH hV _ ih =>
    intro gB hsB vsB h2
    cases h2 with
    | cons hH' hV' hrec' =>
      injection hH.symm.trans hH' with e1 e2
      subst e1; subst e2
      injection hV.symm.trans hV' with e3 e4
      subst e3; subst e4
      obtain ⟨eg, eh, ev⟩ := ih hrec'
      exact ⟨eg, by rw [eh], by rw [ev]⟩

lemma outerRel_det (xs ys : List ℚ) (W H : ℚ) {rs : List ℕ}
    {g gA : EdgeContourGenerator} {hsA vsA : List Edge}
    (h1 : OuterRel sinA xs ys W H rs g gA hsA vsA) :
    ∀ {gB : EdgeContourGenerator} {hsB vsB : List Edge},
      OuterRel sinA xs ys W H rs g gB hsB vsB →
      gA = gB ∧ hsA = hsB ∧ vsA = vsB := by
  induction h1 with
  | nil g =>
    intro gB hsB vsB h2
    cases h2
    exact ⟨rfl, rfl, rfl⟩
  | cons hInner _ ih =>
    intro gB hsB vsB h2
    cases h2 with
    | cons hInner' hrec' =>
      obtain ⟨eg, eh, ev⟩ := innerRel_det sinA xs ys W H _ hInner hInner'
      subst eg; subst eh; subst ev
      obtain ⟨eg2, eh2, ev2⟩ := ih hrec'
      exact ⟨eg2, by rw [eh2], by rw [ev2]⟩

/-- Every input has a run: the derivations are inhabited by the loop
functions' outputs (ties the relational view to the executable one). -/
lemma innerRel_total (xs ys : List ℚ) (W H : ℚ) (r : ℕ) :
    ∀ (cs : List ℕ) (g : EdgeContourGenerator),
      InnerRel sinA xs ys W H r cs g (innerLoop sinA xs ys W H r cs g).1
        (innerLoop sinA xs ys W H r cs g).2.1
        (innerLoop sinA xs ys W H r cs g).2.2 := by
  intro cs
  induction cs with
  | nil => intro g; exact .nil g
  | cons c cs ih => intro g; exact .cons rfl rfl (ih _)

lemma outerRel_total (xs ys : List ℚ) (W H : ℚ) :
    ∀ (rs : List ℕ) (g : EdgeContourGenerator),
      OuterRel sinA xs ys W H rs g (outerLoop sinA xs ys W H rs g).1
        (outerLoop sinA xs ys W H rs g).2.1
        (outerLoop sinA xs ys W H rs g).2.2 := by
  intro rs
  induction rs with
  | nil => intro g; exact .nil g
  | cons r rs ih => intro g; exact .cons (innerRel_total sinA xs ys W H r _ g) (ih _)

/-- C1: the generation entry point is deterministic — any two runs of
`JigsawGenerator::generate` over the same image dimensions, grid, tab size,
jitter and seed produce the same pieces, in particular byte-identical control
points for every segment of every edge of every piece.  (A run is a derivation
of the stateful edge-construction loops; nothing in it is left to the
environment once the inputs are fixed.) -/
theorem generation_deterministic (s : ℕ → ℚ) (W H : ℚ) (cols rows : ℕ)
    (tab jit : Option ℚ) (seed : Option ℕ) (ps1 ps2 : List JigsawPieceEdges)
    (h1 : RunProduces s W H cols rows tab jit seed ps1)
    (h2 : RunProduces s W H cols rows tab jit seed ps2) :
    ps1 = ps2 := by
  obtain ⟨g0, gf, hs, vs, hE, hO, hP⟩ := h1
  obtain ⟨g0', gf', hs', vs', hE', hO', hP'⟩ := h2
  have hg : g0 = g0' := by injection hE.symm.trans hE'
  subst hg
  obtain ⟨_, eh, ev⟩ := outerRel_det s _ _ W H hO hO'
  subst eh; subst ev
  rw [hP, hP']

theorem generation_deterministic_witness :
    RunProduces sinZero 100 100 2 2 none none none psW ∧ psW = psW := by
  have hECG : ECGnew sinZero (divide_axis 100 2).2 (divide_axis 100 2).2
      none none none = .ok ecgW := by
    norm_num [ECGnew, dice, uniform, normalise, rbool, sinZero, divide_axis,
      round, roundAway, DEFAULT_TAB_SIZE, DEFAULT_JITTER, ecgW]
  have hRun : RunProduces sinZero 100 100 2 2 none none none psW :=
    ⟨ecgW, _, _, _, hECG,
      outerRel_total sinZero (divide_axis 100 2).1 (divide_axis 100 2).1
        100 100 (List.range (divide_axis 100 2).1.length) ecgW, rfl⟩
  exact ⟨hRun, generation_deterministic sinZero 100 100 2 2 none none none
    psW psW hRun hRun⟩

theorem cropRect_spec_witness :
    ((cropRect (0, 0) (110, 110) 200 200 100 100).1 : ℚ) ≤ 0 ∧
    (cropRect (0, 0) (110, 110) 200 200 100 100).1 +
      (cropRect (0, 0) (110, 110) 200 200 100 100).2.2.1 ≤ 200 :=
  ⟨(cropRect_spec (0, 0) (110, 110) 200 200 100 100 0 0 (by norm_num)
      (by norm_num) (by norm_num) (by norm_num) (by norm_num) (by norm_num)
      (by norm_num [toU32]) (by norm_num [toU32])).2.2.1,
    (cropRect_spec (0, 0) (110, 110) 200 200 100 100 0 0 (by norm_num)
      (by norm_num) (by norm_num) (by norm_num) (by norm_num) (by norm_num)
      (by norm_num [toU32]) (by norm_num [toU32])).1⟩

end Jigsaw
